import Mathlib

/-!
# FusionAuth Astro components: package entry point and lint configuration

A shallow embedding of the three source files of the repository:

* `index.ts`: three `export ... from` statements (the package entry point);
* `eslint.config.js`: the flat ESLint configuration, an array built from two
  literal entries, two mapped upstream lists and one final literal entry;
* `.eslintrc.cjs`: the legacy ESLint configuration object.

Object literals are embedded as the list of their property definitions in
source order; a spread element contributes the own enumerable properties of
its argument at its position, and a property read returns the value of the
last definition of the key, as evaluation of an object literal does.
-/

namespace FusionAuthAstro

/-! ## JavaScript values -/

/-- JavaScript values that occur in the configuration files. An imported
binding is kept symbolically: the default import of a module followed by a
path of member accesses (`globals.browser` is `imported "globals" ["browser"]`). -/
inductive JSValue where
  | undefined : JSValue
  | bool (b : Bool) : JSValue
  | str (s : String) : JSValue
  | imported (module : String) (path : List String) : JSValue
  | arr (items : List JSValue) : JSValue
  | obj (props : List (String × JSValue)) : JSValue

/-- Property definitions of an object literal, in source order. -/
abbrev Props := List (String × JSValue)

/-- Property read `o[key]`: the value of the last definition of `key`, or
`none` when the object has no such property (the read yields `undefined`). -/
def Props.get : Props → String → Option JSValue
  | [], _ => none
  | (k, v) :: rest, key =>
    match Props.get rest key with
    | some w => some w
    | none => if k = key then some v else none

/-- Own enumerable string-keyed properties copied by a spread element
`...v` inside an object literal: the properties of an object, the indexed
elements of an array, the indexed characters of a string (one per code
point; the configuration files hold no character outside the basic plane),
and nothing for `undefined`, booleans and opaque imported bindings. -/
def spreadProps : JSValue → Props
  | .obj props => props
  | .arr items => items.enum.map (fun p => (toString p.1, p.2))
  | .str s => s.toList.enum.map (fun p => (toString p.1, JSValue.str (String.singleton p.2)))
  | _ => []

/-- Member read `config.name` on a configuration object, `undefined` when absent. -/
def member (config : Props) (name : String) : JSValue :=
  (config.get name).getD JSValue.undefined

/-! ## index.ts -/

/-- One specifier of an `export { ... } from` statement. -/
structure ExportSpecifier where
  /-- The name in the source module (`default` for a default export). -/
  original : String
  /-- The name after `as`, under which index.ts exports the binding. -/
  exported : String
  /-- Whether the specifier carries the `type` modifier. -/
  typeOnly : Bool
  deriving DecidableEq

/-- One `export { ... } from 'module'` statement. -/
structure ExportFrom where
  specifiers : List ExportSpecifier
  source : String
  deriving DecidableEq

/-- The three statements of index.ts, in source order. -/
def indexTs : List ExportFrom :=
  [ { specifiers := [⟨"default", "RemoteCode", false⟩],
      source := "./components/RemoteCode.astro" },
    { specifiers := [⟨"default", "RemoteValue", false⟩],
      source := "./components/RemoteValue/RemoteValue.astro" },
    { specifiers := [⟨"SelectorFunction", "RemoteValueParserSelectorFunction", true⟩,
                     ⟨"Parser", "RemoteValueParser", false⟩],
      source := "./components/RemoteValue/parsers" } ]

/-- Whether a re-exported binding is a value or exists only for the type checker. -/
inductive BindingKind where
  | value
  | type
  deriving DecidableEq

/-- Where an exported name comes from. -/
structure ExportOrigin where
  source : String
  original : String
  kind : BindingKind
  deriving DecidableEq

/-- Every exported name of a module with its origin, in source order. -/
def exportTable (stmts : List ExportFrom) : List (String × ExportOrigin) :=
  stmts.flatMap (fun st => st.specifiers.map (fun sp =>
    (sp.exported, ⟨st.source, sp.original, if sp.typeOnly then .type else .value⟩)))

/-- Names exported at module evaluation: type-only specifiers are erased. -/
def valueExports (stmts : List ExportFrom) : List String :=
  stmts.flatMap (fun st => (st.specifiers.filter (fun sp => !sp.typeOnly)).map (·.exported))

/-- The origin of an exported name, when the module exports it. -/
def resolveExport (stmts : List ExportFrom) (name : String) : Option ExportOrigin :=
  ((exportTable stmts).find? (fun e => e.1 = name)).map (·.2)

/-- The module specifiers a list of export statements imports from, without repetition. -/
def importSources (stmts : List ExportFrom) : List String :=
  (stmts.map (·.source)).dedup

/-! ## eslint.config.js -/

/-- The modules eslint.config.js imports, in source order. -/
def eslintConfigImports : List String :=
  ["globals", "typescript-eslint", "eslint-plugin-astro", "astro-eslint-parser",
   "@typescript-eslint/parser"]

/-- The binding `globals.browser`. -/
def globalsBrowser : JSValue := .imported "globals" ["browser"]

/-- The binding `astroParser`, default import of astro-eslint-parser. -/
def astroParser : JSValue := .imported "astro-eslint-parser" []

/-- The binding `tsParser`, default import of @typescript-eslint/parser. -/
def tsParser : JSValue := .imported "@typescript-eslint/parser" []

/-- The rule settings written after `...config.rules` in the TypeScript mapping. -/
def tsRuleOverrides : Props :=
  [ ("@typescript-eslint/no-explicit-any", .str "off"),
    ("@typescript-eslint/no-unused-vars", .str "off") ]

/-- The arrow function mapped over `tseslint.configs.recommended`:
`config => ({...config, files: [...], rules: {...config.rules, ...}})`. -/
def tsEntry (config : Props) : Props :=
  spreadProps (.obj config) ++
  [ ("files", .arr [.str "**/*.ts"]),
    ("rules", .obj (spreadProps (member config "rules") ++ tsRuleOverrides)) ]

/-- The arrow function mapped over the `flat/base` list of eslint-plugin-astro:
`config => ({...config, files: [...], languageOptions: {...}})`. -/
def astroEntry (config : Props) : Props :=
  spreadProps (.obj config) ++
  [ ("files", .arr [.str "**/*.astro"]),
    ("languageOptions", .obj
      [ ("parser", astroParser),
        ("parserOptions", .obj
          [ ("parser", tsParser),
            ("extraFileExtensions", .arr [.str ".astro"]),
            ("project", .str "./tsconfig.json"),
            ("sourceType", .str "module") ]) ]) ]

/-- The last, literal entry of the exported array. -/
def finalEntry : Props :=
  [ ("files", .arr [.str "**/*.astro"]),
    ("languageOptions", .obj
      [ ("parser", astroParser),
        ("parserOptions", .obj
          [ ("parser", tsParser),
            ("extraFileExtensions", .arr [.str ".astro"]),
            ("project", .str "./tsconfig.json"),
            ("sourceType", .str "module") ]) ]) ]

/-- The default export of eslint.config.js, as a function of the two upstream
lists `tseslint.configs.recommended` and `eslintPluginAstro.configs[flat/base]`. -/
def eslintConfig (tsRecommended astroFlatBase : List Props) : List Props :=
  [ [("files", .arr [.str "**/*.\x7bjs,mjs,cjs,ts\x7d"])],
    [("languageOptions", .obj [("globals", globalsBrowser)])] ]
  ++ tsRecommended.map tsEntry
  ++ astroFlatBase.map astroEntry
  ++ [finalEntry]

/-! ## .eslintrc.cjs -/

/-- The object assigned to `module.exports` in .eslintrc.cjs. -/
def eslintrc : Props :=
  [ ("env", .obj [("browser", .bool true), ("es2021", .bool true)]),
    ("extends", .arr [.str "standard-with-typescript", .str "plugin:astro/recommended"]),
    ("overrides", .arr
      [ .obj
          [ ("files", .arr [.str "*.astro"]),
            ("parser", .str "astro-eslint-parser"),
            ("parserOptions", .obj
              [ ("parser", .str "@typescript-eslint/parser"),
                ("extraFileExtensions", .arr [.str ".astro"]) ]),
            ("rules", .obj []) ],
        .obj
          [ ("env", .obj [("node", .bool true)]),
            ("files", .arr [.str ".eslintrc.\x7bjs,cjs\x7d", .str "*.ts"]),
            ("parserOptions", .obj [("sourceType", .str "script")]) ] ]),
    ("parserOptions", .obj [("ecmaVersion", .str "latest"), ("sourceType", .str "module")]),
    ("rules", .obj
      [ ("@typescript-eslint/comma-dangle", .arr [.str "error", .str "always-multiline"]),
        ("@typescript-eslint/member-delimiter-style", .arr
          [ .str "error",
            .obj [("multiline", .obj [("delimiter", .str "semi"), ("requireLast", .bool true)])] ]),
        ("@typescript-eslint/semi", .arr [.str "error", .str "always"]) ]),
    ("ignorePatterns", .arr [.str "tsconfig.json"]) ]

/-! ## Reading configuration values -/

/-- The elements of an array value; no elements for any other value. -/
def JSValue.items : JSValue → List JSValue
  | .arr xs => xs
  | _ => []

/-- The string elements of an array value, in order. -/
def JSValue.strings (v : JSValue) : List String :=
  v.items.filterMap (fun x => match x with | .str s => some s | _ => none)

/-- The severity of a rule entry: the entry itself when it is a string, the
first element when it is an array `[severity, ...options]`. -/
def severityOf : JSValue → Option JSValue
  | .str s => some (.str s)
  | .arr (x :: _) => some x
  | _ => none

/-- The module a parser setting designates: a string names the module (legacy
format), an imported binding is the default export of its module (flat format). -/
def parserModule : JSValue → Option String
  | .str s => some s
  | .imported m [] => some m
  | _ => none

/-- The three parser facts of a block holding `parser` and `parserOptions`:
outer parser module, inner parser module, extra file extensions. -/
def parserFacts (block : Props) : Option String × Option String × List String :=
  ( parserModule (member block "parser"),
    parserModule (member (spreadProps (member block "parserOptions")) "parser"),
    (member (spreadProps (member block "parserOptions")) "extraFileExtensions").strings )

/-- The own enumerable property `name` of `entry.rules`, which for a rules
object is the setting `entry.rules[name]`; `none` when the entry has no
`rules` or its `rules` has no such property. -/
def ruleAt (entry : Props) (name : String) : Option JSValue :=
  (spreadProps (member entry "rules")).get name

/-- The own enumerable property `key` of `entry.languageOptions` of a flat
configuration entry, `none` when there is none. -/
def languageOptionAt (entry : Props) (key : String) : Option JSValue :=
  (spreadProps (member entry "languageOptions")).get key

/-- The string `block.parserOptions.sourceType` of a configuration block, when set. -/
def sourceTypeOf (block : Props) : Option String :=
  match (spreadProps (member block "parserOptions")).get "sourceType" with
  | some (.str s) => some s
  | _ => none

/-- The overrides of a legacy configuration, in order. -/
def overridesOf (config : Props) : List Props :=
  (member config "overrides").items.map spreadProps

/-- The severity the legacy file itself writes for a rule: the last setting
among the top-level `rules` and the `rules` of each override. -/
def legacyExplicitSeverity (name : String) : Option JSValue :=
  (Props.get (spreadProps (member eslintrc "rules") ++
      (overridesOf eslintrc).flatMap (fun o => spreadProps (member o "rules"))) name).bind
    severityOf

/-- The severity the flat file itself writes for a rule (in the TypeScript mapping). -/
def flatExplicitSeverity (name : String) : Option JSValue :=
  (Props.get tsRuleOverrides name).bind severityOf

/-- Patterns of a `files` setting: a single string or an array of strings. -/
def patternsOf : JSValue → List String
  | .str s => [s]
  | v => v.strings

/-- Modelled from the spec: the cascade of the legacy loader is not part of the
sources. An override applies to a file when one of its `files` patterns
matches it (`matchesFile pattern file`); the `parserOptions` of the applicable
overrides are laid, in their order, over the top-level `parserOptions`, which
are laid over what the extended configurations contribute (`inherited`). -/
def effectiveParserOptions (matchesFile : String → String → Bool) (inherited : Props)
    (config : Props) (file : String) : Props :=
  inherited ++ spreadProps (member config "parserOptions") ++
    ((overridesOf config).filter
        (fun o => (patternsOf (member o "files")).any (fun pat => matchesFile pat file))).flatMap
      (fun o => spreadProps (member o "parserOptions"))

/-- The `sourceType` in effect for a file under a legacy configuration. -/
def effectiveSourceType (matchesFile : String → String → Bool) (inherited : Props)
    (config : Props) (file : String) : Option JSValue :=
  (effectiveParserOptions matchesFile inherited config file).get "sourceType"

/-- Whether `f` accepts the list or one of its tails reached by skipping
characters other than the path separator. -/
def anyTail (f : List Char → Bool) : List Char → Bool
  | [] => f []
  | c :: s => f (c :: s) || (c != '/' && anyTail f s)

/-- Wildcard matching: `*` stands for any run of characters other than the
path separator, every other character for itself. -/
def wildMatch : List Char → List Char → Bool
  | [], s => s.isEmpty
  | p :: ps, s =>
    if p = '*' then anyTail (wildMatch ps) s
    else match s with
      | [] => false
      | c :: cs => p == c && wildMatch ps cs

/-- The alternatives of a pattern with at most one brace group of
comma-separated alternatives. -/
def braceAlternatives (pattern : List Char) : List (List Char) :=
  let before := pattern.takeWhile (· != Char.ofNat 123)
  let afterOpen := (pattern.dropWhile (· != Char.ofNat 123)).drop 1
  let body := afterOpen.takeWhile (· != Char.ofNat 125)
  let rest := (afterOpen.dropWhile (· != Char.ofNat 125)).drop 1
  if pattern.contains (Char.ofNat 123) then
    (body.splitOn ',').map (fun alt => before ++ alt ++ rest)
  else [pattern]

/-- The part of a path after its last separator. -/
def baseName (file : List Char) : List Char :=
  (file.splitOn '/').getLastD []

/-- Modelled from the spec: the glob matcher of the legacy loader is not part of
the sources. Patterns without a separator are matched against the base name
of the file, brace groups are alternatives, `*` is a wildcard. -/
def globMatch (pattern file : String) : Bool :=
  (braceAlternatives pattern.toList).any (fun alt =>
    wildMatch alt (if pattern.toList.contains '/' then file.toList else baseName file.toList))

/-! ## Module graph of the provided sources -/

/-- The two lint configuration files, as module identifiers beside index.ts. -/
def lintConfigFiles : List String := ["./.eslintrc.cjs", "./eslint.config.js"]

/-- The packages .eslintrc.cjs names for the loader: extended configurations and parsers. -/
def eslintrcReferences : List String :=
  (member eslintrc "extends").strings ++
  (overridesOf eslintrc).flatMap (fun o =>
    (parserModule (member o "parser")).toList ++
    (parserModule (member (spreadProps (member o "parserOptions")) "parser")).toList)

/-- The lint configuration files together with everything they import or name. -/
def lintModules : List String :=
  lintConfigFiles ++ eslintConfigImports ++ eslintrcReferences

/-- Import edges of a module: those read off the provided sources, and
`absent m` for a module whose source is not provided. -/
def moduleImports (absent : String → List String) (m : String) : List String :=
  if m = "./index.ts" then importSources indexTs
  else if m = "./eslint.config.js" then eslintConfigImports
  else if m = "./.eslintrc.cjs" then []
  else absent m

/-- The modules reached from `m` along at most `n` import edges. -/
def reachable (g : String → List String) : Nat → String → List String
  | 0, m => [m]
  | n + 1, m => m :: (g m).flatMap (reachable g n)

/-! ## Lemmas on property reads -/

theorem Props.get_nil (key : String) : Props.get [] key = none := rfl

theorem Props.get_append (a b : Props) (key : String) :
    Props.get (a ++ b) key =
      match Props.get b key with
      | some w => some w
      | none => Props.get a key := by
  induction a with
  | nil =>
    cases h : Props.get b key <;> simp [Props.get, h]
  | cons p a ih =>
    obtain ⟨k, v⟩ := p
    have step : Props.get ((k, v) :: a ++ b) key =
        match Props.get (a ++ b) key with
        | some w => some w
        | none => if k = key then some v else none := rfl
    rw [step, ih]
    cases Props.get b key <;> rfl

theorem Props.get_append_of_some (a b : Props) (key : String) (w : JSValue)
    (h : Props.get b key = some w) : Props.get (a ++ b) key = some w := by
  rw [Props.get_append, h]

theorem Props.get_append_of_none (a b : Props) (key : String)
    (h : Props.get b key = none) : Props.get (a ++ b) key = Props.get a key := by
  rw [Props.get_append, h]

/-! ## index.ts: the export surface -/

/-- C1: the names index.ts exports at module evaluation, type-only
specifiers erased, are exactly RemoteCode, RemoteValue and RemoteValueParser,
each once; no other name is a value export. -/
theorem index_value_exports :
    valueExports indexTs = ["RemoteCode", "RemoteValue", "RemoteValueParser"] ∧
    (valueExports indexTs).Nodup ∧
    (∀ name, name ∈ valueExports indexTs ↔
      name = "RemoteCode" ∨ name = "RemoteValue" ∨ name = "RemoteValueParser") ∧
    "RemoteValueParserSelectorFunction" ∉ valueExports indexTs := by
  have h : valueExports indexTs = ["RemoteCode", "RemoteValue", "RemoteValueParser"] := by
    decide
  refine ⟨h, ?_, ?_, ?_⟩
  · rw [h]; decide
  · intro name; rw [h]; simp
  · rw [h]; decide

/-- C2: the table from exported name to (module, original name, value or type)
read off index.ts has exactly four entries with distinct names, so it is a
function, and resolving a name yields an origin exactly for these entries. -/
theorem index_export_origins :
    exportTable indexTs =
      [ ("RemoteCode", ⟨"./components/RemoteCode.astro", "default", .value⟩),
        ("RemoteValue", ⟨"./components/RemoteValue/RemoteValue.astro", "default", .value⟩),
        ("RemoteValueParserSelectorFunction",
          ⟨"./components/RemoteValue/parsers", "SelectorFunction", .type⟩),
        ("RemoteValueParser", ⟨"./components/RemoteValue/parsers", "Parser", .value⟩) ] ∧
    ((exportTable indexTs).map (·.1)).Nodup ∧
    (∀ name origin, resolveExport indexTs name = some origin ↔
      (name, origin) ∈ exportTable indexTs) := by
  have h : exportTable indexTs =
      [ ("RemoteCode", ⟨"./components/RemoteCode.astro", "default", .value⟩),
        ("RemoteValue", ⟨"./components/RemoteValue/RemoteValue.astro", "default", .value⟩),
        ("RemoteValueParserSelectorFunction",
          ⟨"./components/RemoteValue/parsers", "SelectorFunction", .type⟩),
        ("RemoteValueParser", ⟨"./components/RemoteValue/parsers", "Parser", .value⟩) ] := by
    decide
  refine ⟨h, ?_, ?_⟩
  · rw [h]; decide
  · intro name origin
    unfold resolveExport
    rw [h]
    simp only [List.find?, List.mem_cons, Prod.mk.injEq, List.mem_singleton, List.not_mem_nil,
      or_false]
    by_cases h1 : name = "RemoteCode"
    · subst h1; simp; exact eq_comm
    by_cases h2 : name = "RemoteValue"
    · subst h2; simp; exact eq_comm
    by_cases h3 : name = "RemoteValueParserSelectorFunction"
    · subst h3; simp; exact eq_comm
    by_cases h4 : name = "RemoteValueParser"
    · subst h4; simp; exact eq_comm
    · simp [h1, h2, h3, h4, Ne.symm h1, Ne.symm h2, Ne.symm h3, Ne.symm h4]

/-! ## index.ts: the import edges -/

theorem importSources_indexTs :
    importSources indexTs =
      [ "./components/RemoteCode.astro", "./components/RemoteValue/RemoteValue.astro",
        "./components/RemoteValue/parsers" ] := by
  decide

theorem lintModules_eq :
    lintModules =
      [ "./.eslintrc.cjs", "./eslint.config.js", "globals", "typescript-eslint",
        "eslint-plugin-astro", "astro-eslint-parser", "@typescript-eslint/parser",
        "standard-with-typescript", "plugin:astro/recommended", "astro-eslint-parser",
        "@typescript-eslint/parser" ] := by
  rfl

theorem lintModules_ne_entry (m : String) (hm : m ∈ lintModules) : m ≠ "./index.ts" := by
  intro h
  subst h
  rw [lintModules_eq] at hm
  revert hm
  decide

theorem lintModules_not_imported (m : String) (hm : m ∈ lintModules) :
    m ∉ importSources indexTs := by
  rw [lintModules_eq] at hm
  rw [importSources_indexTs]
  simp only [List.mem_cons, List.mem_singleton, List.not_mem_nil, or_false] at hm
  rcases hm with h | h | h | h | h | h | h | h | h | h | h <;> subst h <;> decide

theorem reachable_entry_succ (absent : String → List String) (n : Nat) (t : String) :
    t ∈ reachable (moduleImports absent) (n + 1) "./index.ts" ↔
      t = "./index.ts" ∨
      ∃ c ∈ importSources indexTs, t ∈ reachable (moduleImports absent) n c := by
  have hg : moduleImports absent "./index.ts" = importSources indexTs := by
    simp [moduleImports]
  simp only [reachable, hg, List.mem_cons, List.mem_flatMap]

theorem reachable_leaf (n : Nat) (c : String) (hc : c ∈ importSources indexTs) :
    reachable (moduleImports (fun _ => [])) n c = [c] := by
  have hg : moduleImports (fun _ => []) c = [] := by
    rw [importSources_indexTs] at hc
    simp only [List.mem_cons, List.mem_singleton, List.not_mem_nil, or_false] at hc
    rcases hc with h | h | h <;> subst h <;> simp [moduleImports]
  cases n with
  | zero => rfl
  | succ k => simp [reachable, hg]

/-- C4: index.ts imports from exactly the three component modules; neither
lint configuration file nor any module they import or name is among them. In
the module graph of the provided sources (the component modules, whose
sources are not provided, taken as leaves) no lint module is reached from
index.ts at any depth; and whatever the component modules import, a lint
module not reached from a component module is not reached from index.ts. -/
theorem lint_config_unreachable :
    importSources indexTs =
      [ "./components/RemoteCode.astro", "./components/RemoteValue/RemoteValue.astro",
        "./components/RemoteValue/parsers" ] ∧
    (∀ m ∈ lintModules, m ∉ importSources indexTs) ∧
    (∀ n, ∀ m ∈ lintModules,
      m ∉ reachable (moduleImports (fun _ => [])) n "./index.ts") ∧
    (∀ (absent : String → List String) (n : Nat) (m : String), m ∈ lintModules →
      (∀ c ∈ importSources indexTs, m ∉ reachable (moduleImports absent) n c) →
      m ∉ reachable (moduleImports absent) (n + 1) "./index.ts") := by
  have general : ∀ (absent : String → List String) (n : Nat) (m : String), m ∈ lintModules →
      (∀ c ∈ importSources indexTs, m ∉ reachable (moduleImports absent) n c) →
      m ∉ reachable (moduleImports absent) (n + 1) "./index.ts" := by
    intro absent n m hm hc hin
    rcases (reachable_entry_succ absent n m).mp hin with h | ⟨c, hcmem, hreach⟩
    · exact lintModules_ne_entry m hm h
    · exact hc c hcmem hreach
  refine ⟨importSources_indexTs, lintModules_not_imported, ?_, general⟩
  intro n m hm
  cases n with
  | zero =>
    simp only [reachable, List.mem_singleton]
    exact lintModules_ne_entry m hm
  | succ k =>
    apply general _ k m hm
    intro c hc
    rw [reachable_leaf k c hc, List.mem_singleton]
    intro h
    subst h
    exact lintModules_not_imported _ hm hc

/-- Witness for C4 at depth three, with the component modules as leaves: the
flat configuration file is not reached from index.ts. -/
theorem lint_config_unreachable_witness :
    "./eslint.config.js" ∉ reachable (moduleImports (fun _ => [])) 3 "./index.ts" :=
  lint_config_unreachable.2.2.2 (fun _ => []) 2 "./eslint.config.js" (by decide) (by decide)

/-! ## The rule settings of the two configuration files -/

theorem legacyExplicitSeverity_eq (name : String) :
    legacyExplicitSeverity name =
      if name = "@typescript-eslint/semi" then some (.str "error")
      else if name = "@typescript-eslint/member-delimiter-style" then some (.str "error")
      else if name = "@typescript-eslint/comma-dangle" then some (.str "error")
      else none := by
  have h : spreadProps (member eslintrc "rules") ++
      (overridesOf eslintrc).flatMap (fun o => spreadProps (member o "rules")) =
      [ ("@typescript-eslint/comma-dangle", .arr [.str "error", .str "always-multiline"]),
        ("@typescript-eslint/member-delimiter-style", .arr
          [ .str "error",
            .obj [("multiline", .obj [("delimiter", .str "semi"), ("requireLast", .bool true)])] ]),
        ("@typescript-eslint/semi", .arr [.str "error", .str "always"]) ] := rfl
  unfold legacyExplicitSeverity
  rw [h]
  simp only [Props.get]
  by_cases h1 : name = "@typescript-eslint/semi"
  · subst h1; rfl
  by_cases h2 : name = "@typescript-eslint/member-delimiter-style"
  · subst h2; rfl
  by_cases h3 : name = "@typescript-eslint/comma-dangle"
  · subst h3; rfl
  · simp [h1, h2, h3, Ne.symm h1, Ne.symm h2, Ne.symm h3]

theorem flatExplicitSeverity_eq (name : String) :
    flatExplicitSeverity name =
      if name = "@typescript-eslint/no-unused-vars" then some (.str "off")
      else if name = "@typescript-eslint/no-explicit-any" then some (.str "off")
      else none := by
  unfold flatExplicitSeverity tsRuleOverrides
  simp only [Props.get]
  by_cases h1 : name = "@typescript-eslint/no-unused-vars"
  · subst h1; rfl
  by_cases h2 : name = "@typescript-eslint/no-explicit-any"
  · subst h2; rfl
  · simp [h1, h2, Ne.symm h1, Ne.symm h2]

/-- C5, counterexample: the two files do not write the same severities. The
legacy file sets `@typescript-eslint/semi` to error and the flat file does
not set it; the flat file sets `@typescript-eslint/no-explicit-any` to off and
the legacy file does not set it. -/
theorem configs_redundant_counterexample :
    legacyExplicitSeverity "@typescript-eslint/semi" ≠
      flatExplicitSeverity "@typescript-eslint/semi" ∧
    legacyExplicitSeverity "@typescript-eslint/semi" = some (.str "error") ∧
    flatExplicitSeverity "@typescript-eslint/semi" = none ∧
    legacyExplicitSeverity "@typescript-eslint/no-explicit-any" = none ∧
    flatExplicitSeverity "@typescript-eslint/no-explicit-any" = some (.str "off") := by
  have h1 : legacyExplicitSeverity "@typescript-eslint/semi" = some (.str "error") := rfl
  have h2 : flatExplicitSeverity "@typescript-eslint/semi" = none := rfl
  refine ⟨?_, h1, h2, rfl, rfl⟩
  rw [h1, h2]
  exact Option.some_ne_none _

/-- C5, amended: the legacy file writes a severity for exactly three rules,
always error; the flat file writes a severity for exactly two rules, always
off; no rule has a severity written by both files. -/
theorem explicit_rules_disjoint (name : String) :
    (legacyExplicitSeverity name ≠ none ↔
      name = "@typescript-eslint/comma-dangle" ∨
      name = "@typescript-eslint/member-delimiter-style" ∨
      name = "@typescript-eslint/semi") ∧
    (∀ sev, legacyExplicitSeverity name = some sev → sev = .str "error") ∧
    (flatExplicitSeverity name ≠ none ↔
      name = "@typescript-eslint/no-explicit-any" ∨
      name = "@typescript-eslint/no-unused-vars") ∧
    (∀ sev, flatExplicitSeverity name = some sev → sev = .str "off") ∧
    ¬ (legacyExplicitSeverity name ≠ none ∧ flatExplicitSeverity name ≠ none) := by
  rw [legacyExplicitSeverity_eq, flatExplicitSeverity_eq]
  by_cases h1 : name = "@typescript-eslint/semi"
  · subst h1; simp
  by_cases h2 : name = "@typescript-eslint/member-delimiter-style"
  · subst h2; simp
  by_cases h3 : name = "@typescript-eslint/comma-dangle"
  · subst h3; simp
  by_cases h4 : name = "@typescript-eslint/no-unused-vars"
  · subst h4; simp
  by_cases h5 : name = "@typescript-eslint/no-explicit-any"
  · subst h5; simp
  · simp [h1, h2, h3, h4, h5]

/-- Witness for the amended C5 at the rule `@typescript-eslint/semi`: the
legacy file writes error for it and the flat file writes nothing. -/
theorem explicit_rules_disjoint_witness :
    legacyExplicitSeverity "@typescript-eslint/semi" = some (.str "error") ∧
    (.str "error" : JSValue) = .str "error" ∧
    ¬ (legacyExplicitSeverity "@typescript-eslint/semi" ≠ none ∧
       flatExplicitSeverity "@typescript-eslint/semi" ≠ none) :=
  ⟨rfl, (explicit_rules_disjoint "@typescript-eslint/semi").2.1 (.str "error") rfl,
    (explicit_rules_disjoint "@typescript-eslint/semi").2.2.2.2⟩

/-! ## eslint.config.js: the two mappings -/

theorem tsEntry_files (config : Props) :
    (tsEntry config).get "files" = some (.arr [.str "**/*.ts"]) :=
  Props.get_append_of_some _ _ _ _ rfl

theorem tsEntry_rules (config : Props) :
    (tsEntry config).get "rules" =
      some (.obj (spreadProps (member config "rules") ++ tsRuleOverrides)) :=
  Props.get_append_of_some _ _ _ _ rfl

theorem tsEntry_other (config : Props) (key : String) (h1 : key ≠ "files")
    (h2 : key ≠ "rules") : (tsEntry config).get key = config.get key := by
  apply Props.get_append_of_none
  simp [Props.get, Ne.symm h1, Ne.symm h2]

theorem tsRuleOverrides_other (name : String) (h1 : name ≠ "@typescript-eslint/no-explicit-any")
    (h2 : name ≠ "@typescript-eslint/no-unused-vars") : Props.get tsRuleOverrides name = none := by
  simp [tsRuleOverrides, Props.get, Ne.symm h1, Ne.symm h2]

theorem astroEntry_files (config : Props) :
    (astroEntry config).get "files" = some (.arr [.str "**/*.astro"]) :=
  Props.get_append_of_some _ _ _ _ rfl

theorem astroEntry_languageOptions (config : Props) :
    (astroEntry config).get "languageOptions" = finalEntry.get "languageOptions" :=
  Props.get_append_of_some _ _ _ _ rfl

theorem astroEntry_other (config : Props) (key : String) (h1 : key ≠ "files")
    (h2 : key ≠ "languageOptions") : (astroEntry config).get key = config.get key := by
  apply Props.get_append_of_none
  simp [Props.get, Ne.symm h1, Ne.symm h2]

theorem eslintConfig_ts_index (ts astro : List Props) (i : Nat) (h : i < ts.length) :
    (eslintConfig ts astro)[i + 2]? = (ts[i]?).map tsEntry := by
  have hlen : i + 2 < ([ [("files", JSValue.arr [.str "**/*.\x7bjs,mjs,cjs,ts\x7d"])],
      [("languageOptions", JSValue.obj [("globals", globalsBrowser)])] ]
      ++ ts.map tsEntry).length := by
    simp; omega
  unfold eslintConfig
  rw [List.getElem?_append_left (by simp; omega), List.getElem?_append_left hlen]
  simp [List.getElem?_cons_succ]

theorem eslintConfig_astro_index (ts astro : List Props) (i : Nat) :
    (eslintConfig ts astro)[ts.length + 2 + i]? =
      if i < astro.length then (astro[i]?).map astroEntry
      else if i = astro.length then some finalEntry else none := by
  unfold eslintConfig
  simp only [List.append_assoc]
  rw [show ts.length + 2 + i = 2 + (ts.length + i) by omega]
  simp only [List.cons_append, List.nil_append]
  rw [show 2 + (ts.length + i) = (ts.length + i) + 1 + 1 by omega]
  rw [List.getElem?_cons_succ, List.getElem?_cons_succ]
  rw [List.getElem?_append_right (by simp)]
  simp only [List.length_map, Nat.add_sub_cancel_left]
  by_cases h : i < astro.length
  · rw [List.getElem?_append_left (by simpa using h)]
    simp [h]
  · rw [List.getElem?_append_right (by simpa using h)]
    simp only [h, if_false, List.length_map]
    by_cases h2 : i = astro.length
    · simp [h2]
    · have : i - astro.length ≠ 0 := by omega
      obtain ⟨k, hk⟩ := Nat.exists_eq_succ_of_ne_zero this
      simp [h2, hk]

theorem tsEntry_ruleAt (config : Props) (name : String) :
    ruleAt (tsEntry config) name =
      match Props.get tsRuleOverrides name with
      | some w => some w
      | none => ruleAt config name := by
  unfold ruleAt member
  rw [tsEntry_rules]
  exact Props.get_append _ _ _

/-- C7: for every upstream list, the TypeScript mapping yields a list of the
same length and order (also as a segment of the exported array); each entry
has files equal to the single glob for .ts files, has the two overridden
rules off whatever the upstream entry holds, keeps every other upstream rule,
and keeps every upstream field other than files and rules. -/
theorem ts_mapping_frame (tsRecommended astroFlatBase : List Props) :
    (tsRecommended.map tsEntry).length = tsRecommended.length ∧
    (∀ i : Nat, (tsRecommended.map tsEntry)[i]? = (tsRecommended[i]?).map tsEntry) ∧
    (∀ i : Nat, i < tsRecommended.length →
      (eslintConfig tsRecommended astroFlatBase)[i + 2]? = (tsRecommended[i]?).map tsEntry) ∧
    (∀ config : Props,
      (tsEntry config).get "files" = some (.arr [.str "**/*.ts"]) ∧
      ruleAt (tsEntry config) "@typescript-eslint/no-explicit-any" = some (.str "off") ∧
      ruleAt (tsEntry config) "@typescript-eslint/no-unused-vars" = some (.str "off") ∧
      (∀ name, name ≠ "@typescript-eslint/no-explicit-any" →
        name ≠ "@typescript-eslint/no-unused-vars" →
        ruleAt (tsEntry config) name = ruleAt config name) ∧
      (∀ key, key ≠ "files" → key ≠ "rules" → (tsEntry config).get key = config.get key)) := by
  refine ⟨List.length_map _ _, fun i => List.getElem?_map _ _ _,
    fun i h => eslintConfig_ts_index _ _ i h, fun config => ⟨tsEntry_files config, ?_, ?_, ?_,
      fun key h1 h2 => tsEntry_other config key h1 h2⟩⟩
  · rw [tsEntry_ruleAt]; rfl
  · rw [tsEntry_ruleAt]; rfl
  · intro name h1 h2
    rw [tsEntry_ruleAt, tsRuleOverrides_other name h1 h2]

/-- Witness for C7 on an upstream entry that sets one overridden rule to error
and one other rule: the overridden rule comes out off, the other rule and the
field `name` are kept. -/
theorem ts_mapping_frame_witness :
    ruleAt (tsEntry [ ("name", .str "typescript-eslint/recommended"),
        ("rules", .obj [ ("@typescript-eslint/no-explicit-any", .str "error"),
                         ("@typescript-eslint/ban-ts-comment", .str "error") ]) ])
      "@typescript-eslint/no-explicit-any" = some (.str "off") ∧
    ruleAt (tsEntry [ ("name", .str "typescript-eslint/recommended"),
        ("rules", .obj [ ("@typescript-eslint/no-explicit-any", .str "error"),
                         ("@typescript-eslint/ban-ts-comment", .str "error") ]) ])
      "@typescript-eslint/ban-ts-comment" = some (.str "error") ∧
    (tsEntry [ ("name", .str "typescript-eslint/recommended"),
        ("rules", .obj [ ("@typescript-eslint/no-explicit-any", .str "error"),
                         ("@typescript-eslint/ban-ts-comment", .str "error") ]) ]).get "name"
      = some (.str "typescript-eslint/recommended") :=
  ⟨((ts_mapping_frame [] []).2.2.2 _).2.1,
   (((ts_mapping_frame [] []).2.2.2 _).2.2.2.1 "@typescript-eslint/ban-ts-comment"
      (by decide) (by decide)).trans rfl,
   (((ts_mapping_frame [] []).2.2.2 _).2.2.2.2 "name" (by decide) (by decide)).trans rfl⟩

/-- C8: for every upstream list, the Astro mapping yields one entry per
upstream entry, in order, followed in the exported array by the final literal
entry; each mapped entry has files equal to the single glob for .astro files
and the same fixed languageOptions whatever the upstream entry holds (no
upstream languageOptions key survives), keeps every other upstream field, and
has the same files and languageOptions as the final literal entry. -/
theorem astro_mapping_frame (tsRecommended astroFlatBase : List Props) :
    (astroFlatBase.map astroEntry).length = astroFlatBase.length ∧
    (∀ i : Nat, (astroFlatBase.map astroEntry)[i]? = (astroFlatBase[i]?).map astroEntry) ∧
    (∀ i : Nat, (eslintConfig tsRecommended astroFlatBase)[tsRecommended.length + 2 + i]? =
      if i < astroFlatBase.length then (astroFlatBase[i]?).map astroEntry
      else if i = astroFlatBase.length then some finalEntry else none) ∧
    (eslintConfig tsRecommended astroFlatBase).getLast? = some finalEntry ∧
    (∀ config : Props,
      (astroEntry config).get "files" = some (.arr [.str "**/*.astro"]) ∧
      (astroEntry config).get "languageOptions" = some (.obj
        [ ("parser", astroParser),
          ("parserOptions", .obj
            [ ("parser", tsParser),
              ("extraFileExtensions", .arr [.str ".astro"]),
              ("project", .str "./tsconfig.json"),
              ("sourceType", .str "module") ]) ]) ∧
      (∀ key, key ≠ "parser" → key ≠ "parserOptions" →
        languageOptionAt (astroEntry config) key = none) ∧
      (∀ key, key ≠ "files" → key ≠ "languageOptions" →
        (astroEntry config).get key = config.get key) ∧
      finalEntry.get "files" = (astroEntry config).get "files" ∧
      finalEntry.get "languageOptions" = (astroEntry config).get "languageOptions") := by
  refine ⟨List.length_map _ _, fun i => List.getElem?_map _ _ _,
    fun i => eslintConfig_astro_index _ _ i, ?_, fun config => ⟨astroEntry_files config, ?_, ?_,
      fun key h1 h2 => astroEntry_other config key h1 h2, ?_, ?_⟩⟩
  · unfold eslintConfig
    exact List.getLast?_concat _
  · rw [astroEntry_languageOptions]; rfl
  · intro key h1 h2
    unfold languageOptionAt member
    rw [astroEntry_languageOptions]
    simp [finalEntry, Props.get, spreadProps, Ne.symm h1, Ne.symm h2]
  · rw [astroEntry_files]; rfl
  · rw [astroEntry_languageOptions]

/-- Witness for C8 on an upstream entry with its own languageOptions: the
globals of the upstream entry do not survive and its `plugins` field is kept. -/
theorem astro_mapping_frame_witness :
    languageOptionAt (astroEntry [ ("plugins", .obj [("astro", .imported "eslint-plugin-astro" [])]),
        ("languageOptions", .obj [("globals", .obj [("Astro", .str "readonly")])]) ])
      "globals" = none ∧
    (astroEntry [ ("plugins", .obj [("astro", .imported "eslint-plugin-astro" [])]),
        ("languageOptions", .obj [("globals", .obj [("Astro", .str "readonly")])]) ]).get "plugins"
      = some (.obj [("astro", .imported "eslint-plugin-astro" [])]) :=
  ⟨((astro_mapping_frame [] []).2.2.2.2 _).2.2.1 "globals" (by decide) (by decide),
   (((astro_mapping_frame [] []).2.2.2.2 _).2.2.2.1 "plugins" (by decide) (by decide)).trans rfl⟩

/-! ## The parser of .astro files -/

theorem finalEntry_parserFacts :
    parserFacts (spreadProps (member finalEntry "languageOptions")) =
      (some "astro-eslint-parser", some "@typescript-eslint/parser", [".astro"]) := by
  decide

theorem astroEntry_parserFacts (config : Props) :
    parserFacts (spreadProps (member (astroEntry config) "languageOptions")) =
      (some "astro-eslint-parser", some "@typescript-eslint/parser", [".astro"]) := by
  have h : member (astroEntry config) "languageOptions" = member finalEntry "languageOptions" := by
    unfold member
    rw [astroEntry_languageOptions]
  rw [h]
  exact finalEntry_parserFacts

/-- C6: in the legacy file every override whose files list names the .astro
glob, and in the flat file every entry of the exported array whose files is
the single glob for .astro files (each entry mapped from the upstream
flat/base list, whatever that list is, and the final literal entry), has
astro-eslint-parser as parser, @typescript-eslint/parser as inner parser and
exactly the extension .astro as extra file extension. -/
theorem astro_files_parsing (tsRecommended astroFlatBase : List Props) :
    (∃ o ∈ overridesOf eslintrc, patternsOf (member o "files") = ["*.astro"]) ∧
    (∀ o ∈ overridesOf eslintrc, "*.astro" ∈ patternsOf (member o "files") →
      parserFacts o =
        (some "astro-eslint-parser", some "@typescript-eslint/parser", [".astro"])) ∧
    (∀ e ∈ eslintConfig tsRecommended astroFlatBase,
      e.get "files" = some (.arr [.str "**/*.astro"]) →
      parserFacts (spreadProps (member e "languageOptions")) =
        (some "astro-eslint-parser", some "@typescript-eslint/parser", [".astro"])) ∧
    (∀ config ∈ astroFlatBase,
      astroEntry config ∈ eslintConfig tsRecommended astroFlatBase ∧
      (astroEntry config).get "files" = some (.arr [.str "**/*.astro"])) ∧
    (finalEntry ∈ eslintConfig tsRecommended astroFlatBase ∧
      finalEntry.get "files" = some (.arr [.str "**/*.astro"])) := by
  refine ⟨by decide, by decide, ?_, ?_, ?_⟩
  · intro e he hfiles
    unfold eslintConfig at he
    simp only [List.mem_append, List.mem_cons, List.mem_singleton, List.not_mem_nil, or_false,
      List.mem_map] at he
    rcases he with ((((h | h) | ⟨c, _, h⟩) | ⟨c, _, h⟩) | h)
    · subst h
      simp [Props.get] at hfiles
    · subst h
      simp [Props.get] at hfiles
    · subst h
      rw [tsEntry_files] at hfiles
      simp at hfiles
    · subst h
      exact astroEntry_parserFacts c
    · subst h
      exact finalEntry_parserFacts
  · intro config hc
    refine ⟨?_, astroEntry_files config⟩
    unfold eslintConfig
    simp only [List.mem_append, List.mem_map]
    exact Or.inl (Or.inr ⟨config, hc, rfl⟩)
  · refine ⟨?_, rfl⟩
    unfold eslintConfig
    simp

/-- Witness for C6 on an upstream flat/base list of one entry: the entry
mapped from it is in the exported array and carries the three parser facts. -/
theorem astro_files_parsing_witness :
    parserFacts (spreadProps (member
        (astroEntry [("plugins", .obj [("astro", .imported "eslint-plugin-astro" [])])])
        "languageOptions")) =
      (some "astro-eslint-parser", some "@typescript-eslint/parser", [".astro"]) :=
  (astro_files_parsing [] [[("plugins", .obj [("astro", .imported "eslint-plugin-astro" [])])]]).2.2.1
    _ (by simp [eslintConfig]) (astroEntry_files _)

/-! ## The effective sourceType under the legacy configuration -/

theorem overrides_parserOptions (matchesFile : String → String → Bool) (file : String) :
    ((overridesOf eslintrc).filter
        (fun o => (patternsOf (member o "files")).any (fun pat => matchesFile pat file))).flatMap
      (fun o => spreadProps (member o "parserOptions")) =
    (if matchesFile "*.astro" file = true then
        [ ("parser", JSValue.str "@typescript-eslint/parser"),
          ("extraFileExtensions", JSValue.arr [.str ".astro"]) ]
      else []) ++
    (if (matchesFile ".eslintrc.\x7bjs,cjs\x7d" file || matchesFile "*.ts" file) = true then
        [("sourceType", JSValue.str "script")]
      else []) := by
  cases h1 : matchesFile "*.astro" file <;>
  cases h2 : matchesFile ".eslintrc.\x7bjs,cjs\x7d" file <;>
  cases h3 : matchesFile "*.ts" file <;>
  simp [overridesOf, eslintrc, member, Props.get, spreadProps, JSValue.items, patternsOf,
    JSValue.strings, List.filter, h1, h2, h3]

theorem effectiveSourceType_eslintrc (matchesFile : String → String → Bool) (inherited : Props)
    (file : String) :
    effectiveSourceType matchesFile inherited eslintrc file =
      if (matchesFile ".eslintrc.\x7bjs,cjs\x7d" file || matchesFile "*.ts" file) = true then
        some (.str "script")
      else some (.str "module") := by
  unfold effectiveSourceType effectiveParserOptions
  rw [overrides_parserOptions]
  have htop : Props.get (spreadProps (member eslintrc "parserOptions")) "sourceType"
      = some (.str "module") := rfl
  cases h1 : matchesFile "*.astro" file <;>
  cases h2 : (matchesFile ".eslintrc.\x7bjs,cjs\x7d" file || matchesFile "*.ts" file)
  · simp only [Bool.false_eq_true, if_false, List.append_nil]
    exact Props.get_append_of_some _ _ _ _ htop
  · simp only [Bool.false_eq_true, if_false, if_true, List.nil_append]
    exact Props.get_append_of_some _ _ _ _ rfl
  · simp only [Bool.false_eq_true, if_false, if_true, List.append_nil]
    have hn : Props.get [ ("parser", JSValue.str "@typescript-eslint/parser"),
        ("extraFileExtensions", JSValue.arr [.str ".astro"]) ] "sourceType" = none := rfl
    rw [Props.get_append_of_none _ _ _ hn]
    exact Props.get_append_of_some _ _ _ _ htop
  · simp only [if_true]
    exact Props.get_append_of_some _ _ _ _ rfl

/-- C9: in the legacy file an override names the glob for .ts files, and every
override that does sets sourceType to script, while the top-level sourceType
is module. With overrides laid over the top-level settings, the effective
sourceType of every file matching that glob is script, whatever the extended
configurations contribute, in particular for index.ts; for a file matching
neither pattern of that override, such as one matching only the .astro glob,
it is module. -/
theorem legacy_ts_sourceType (matchesFile : String → String → Bool) (inherited : Props)
    (file : String) :
    (∃ o ∈ overridesOf eslintrc, "*.ts" ∈ patternsOf (member o "files")) ∧
    (∀ o ∈ overridesOf eslintrc, "*.ts" ∈ patternsOf (member o "files") →
      sourceTypeOf o = some "script") ∧
    sourceTypeOf eslintrc = some "module" ∧
    sourceTypeOf eslintrc ≠ some "script" ∧
    (matchesFile "*.ts" file = true →
      effectiveSourceType matchesFile inherited eslintrc file = some (.str "script")) ∧
    (matchesFile "*.ts" file = false → matchesFile ".eslintrc.\x7bjs,cjs\x7d" file = false →
      effectiveSourceType matchesFile inherited eslintrc file = some (.str "module")) ∧
    effectiveSourceType globMatch inherited eslintrc "index.ts" = some (.str "script") ∧
    globMatch "*.ts" "index.ts" = true := by
  refine ⟨by decide, by decide, by decide, by decide, ?_, ?_, ?_, by decide⟩
  · intro h
    rw [effectiveSourceType_eslintrc]
    simp [h]
  · intro h1 h2
    rw [effectiveSourceType_eslintrc]
    simp [h1, h2]
  · rw [effectiveSourceType_eslintrc]
    have h : globMatch "*.ts" "index.ts" = true := by decide
    simp [h]

/-- Witness for C9 with the glob matcher of the model: a component file
matching only the .astro glob keeps module although an extended configuration
contributes script, and a nested .ts file gets script. -/
theorem legacy_ts_sourceType_witness :
    effectiveSourceType globMatch [("sourceType", .str "script")] eslintrc
      "components/RemoteCode.astro" = some (.str "module") ∧
    effectiveSourceType globMatch [("sourceType", .str "module")] eslintrc
      "components/RemoteValue/parsers.ts" = some (.str "script") :=
  ⟨(legacy_ts_sourceType globMatch [("sourceType", .str "script")]
      "components/RemoteCode.astro").2.2.2.2.2.1 (by decide) (by decide),
   (legacy_ts_sourceType globMatch [("sourceType", .str "module")]
      "components/RemoteValue/parsers.ts").2.2.2.2.1 (by decide)⟩

end FusionAuthAstro
